import Mathlib

/-!
# Verification of the BGP attribute survey pipeline

A shallow embedding, in Lean 4, of the core components of a Rust program
that fetches BGP archive files, decodes them into MRT records, and reduces
them into attribute statistics.  The embedding follows the source files
`src/prefetch.rs`, `src/iter.rs` and `src/main.rs`:

* the memory-budget admission function `attempt_to_claim_space` and the
  interleaved budget transition system of fetch workers and buffer drops
  (`prefetch.rs`);
* the fault-tolerant record iterator `MsgIter`, its end-of-file probe
  `EofChecker`, and the error classification `is_probably_fatal_error`
  (`iter.rs`);
* the decompression router `reader_for_buffer` (`prefetch.rs`);
* the statistics accumulator `AttributeCounts` and its merge `reduce`
  (`main.rs`).

Machine integers are modelled as `Int`/`Nat`; the only arithmetic that can
wrap in the source are the `u64` statistic counters, modelled as
`ZMod (2 ^ 64)` (wrapping 64-bit addition).
-/

namespace BgpSurvey

/-! ## Constants (`main.rs`)

`MAX_PREFETCH_BUFFER_SIZE = 1 << 30` and `PREFETCH_BUFFER_SPACE = 32 << 30`.
-/

def MAX_PREFETCH_BUFFER_SIZE : Int := 2 ^ 30

def PREFETCH_BUFFER_SPACE : Int := 32 * 2 ^ 30

/-! ## The space budget (`prefetch.rs`)

The global counter `ESTIMATED_SPACE : AtomicIsize` is initialised to
`PREFETCH_BUFFER_SPACE`.  `attempt_to_claim_space` is embedded as a pure
function from the current counter value and the estimated size to the pair
(result, new counter value); the atomic `fetch_update` loop in the source
performs exactly this state transformation atomically.
-/

/-- Embedding of `attempt_to_claim_space` (`prefetch.rs` lines 49–62).
`space` is the current value of `ESTIMATED_SPACE`; the function returns
the `Option<isize>` result together with the counter value after the call.
The source rejects `estimated_size <= 0` and
`estimated_size as usize > MAX_PREFETCH_BUFFER_SIZE` (the cast is the
identity here because the first disjunct already rejected non-positive
values), then conditionally subtracts `2 * estimated_size` when the
counter would stay non-negative. -/
def attempt_to_claim_space (space : Int) (estimated_size : Int) :
    Option Int × Int :=
  if estimated_size ≤ 0 ∨ MAX_PREFETCH_BUFFER_SIZE < estimated_size then
    (none, space)
  else
    -- `estimated_buffer_capacity = 2 * estimated_size` in the source
    if 2 * estimated_size ≤ space then
      (some (2 * estimated_size), space - 2 * estimated_size)
    else
      (none, space)

/-- **C5.** `attempt_to_claim_space(estimated_size)` returns `none` whenever
`estimated_size ≤ 0` or `estimated_size > MAX_PREFETCH_BUFFER_SIZE`,
regardless of the remaining budget; otherwise it computes
`claimed_amount = 2 * estimated_size` and decrements the counter by that
amount exactly when the result stays ≥ 0, returning `some claimed_amount`
on success and `none` (leaving the counter untouched) when the remaining
budget is insufficient. -/
theorem attempt_to_claim_space_spec (space e : Int) :
    ((e ≤ 0 ∨ MAX_PREFETCH_BUFFER_SIZE < e) →
      attempt_to_claim_space space e = (none, space)) ∧
    (0 < e → e ≤ MAX_PREFETCH_BUFFER_SIZE →
      (2 * e ≤ space →
        attempt_to_claim_space space e = (some (2 * e), space - 2 * e)) ∧
      (space < 2 * e →
        attempt_to_claim_space space e = (none, space))) := by
  refine ⟨fun h => ?_, fun hpos hmax => ⟨fun hle => ?_, fun hlt => ?_⟩⟩
  · simp only [attempt_to_claim_space, if_pos h]
  · rw [attempt_to_claim_space, if_neg, if_pos hle]
    rintro (h | h) <;> omega
  · rw [attempt_to_claim_space, if_neg, if_neg (by omega)]
    rintro (h | h) <;> omega

/-- Witness for `attempt_to_claim_space_spec` at concrete inputs:
a rejected non-positive size, a granted claim, and a denial for an
insufficient budget. -/
theorem attempt_to_claim_space_spec_witness :
    attempt_to_claim_space 100 0 = (none, 100) ∧
    attempt_to_claim_space 100 10 = (some 20, 80) ∧
    attempt_to_claim_space 10 6 = (none, 10) := by
  refine ⟨(attempt_to_claim_space_spec 100 0).1 (Or.inl (by norm_num)), ?_, ?_⟩
  · have h := ((attempt_to_claim_space_spec 100 10).2 (by norm_num)
      (by norm_num [MAX_PREFETCH_BUFFER_SIZE])).1 (by norm_num)
    simpa using h
  · exact ((attempt_to_claim_space_spec 10 6).2 (by norm_num)
      (by norm_num [MAX_PREFETCH_BUFFER_SIZE])).2 (by norm_num)

/-- **C10.** Whenever `attempt_to_claim_space` returns `none` — for a
non-positive size, an oversized request, or an insufficient budget — the
counter is left exactly unchanged by the call. -/
theorem attempt_to_claim_space_none_no_change (space e : Int)
    (h : (attempt_to_claim_space space e).1 = none) :
    (attempt_to_claim_space space e).2 = space := by
  rw [attempt_to_claim_space] at h ⊢
  split_ifs at h ⊢ with h1 h2 <;> rfl

/-- Witness for `attempt_to_claim_space_none_no_change`: a denial for an
insufficient budget leaves the counter at its old value. -/
theorem attempt_to_claim_space_none_no_change_witness :
    (attempt_to_claim_space 10 6).2 = 10 :=
  attempt_to_claim_space_none_no_change 10 6 (by decide)

/-! ## The fault-tolerant record iterator (`iter.rs`) -/

/-- The `std::io::ErrorKind` values relevant here: `UnexpectedEof` is the
one kind the classification distinguishes; `Other` (used by the fetch path)
and `PermissionDenied` represent the remaining kinds. -/
inductive IoErrorKind where
  | UnexpectedEof
  | Other
  | PermissionDenied
deriving DecidableEq

/-- Embedding of `bgpkit_parser::ParserError` (an external collaborator).
This repository inspects only the variant and, for the I/O variants, the
`std::io::ErrorKind`; other payloads are kept as the message strings the
variants carry. -/
inductive ParserError where
  | IoError (kind : IoErrorKind)
  | IoNotEnoughBytes
  | EofError (kind : IoErrorKind)
  | OneIoError
  | EofExpected
  | ParseError (msg : String)
  | TruncatedMsg (msg : String)
  | Unsupported (msg : String)
  | FilterError (msg : String)
deriving DecidableEq

/-- Embedding of `is_probably_fatal_error` (`iter.rs` lines 52–64). -/
def is_probably_fatal_error : ParserError → Bool
  | .IoError e => e == .UnexpectedEof
  | .IoNotEnoughBytes => true
  | .EofError e => e == .UnexpectedEof
  | .OneIoError => true
  | .EofExpected => true
  | .ParseError _ => false
  | .TruncatedMsg _ => false
  | .Unsupported _ => false
  | .FilterError _ => false

/-- Modelled from the spec: the fixed fatal/non-fatal classification table of
§4.4 — structural-truncation and I/O-boundary errors, "including any
I/O-layer failure other than a clean end-of-stream", are fatal;
content-validation, unsupported-variant and filtering errors are
non-fatal.  A clean end-of-stream is never represented as a `ParserError`
(it is detected by the `EofChecker` probe before any error is classified),
so every `IoError`/`EofError`, whatever its kind, is an I/O-layer failure
other than a clean end.  `TruncatedMsg` reports malformed content of a
single well-delimited message and is taken as content validation. -/
def spec_fatal_table : ParserError → Bool
  | .IoError _ => true
  | .IoNotEnoughBytes => true
  | .EofError _ => true
  | .OneIoError => true
  | .EofExpected => true
  | .ParseError _ => false
  | .TruncatedMsg _ => false
  | .Unsupported _ => false
  | .FilterError _ => false

/-- **C4 (counterexample).** The code does not implement the spec's table:
an `IoError` of kind `Other` is an I/O-layer failure other than a clean
end-of-stream, hence fatal per the spec, yet `is_probably_fatal_error`
classifies it as non-fatal (the source marks `IoError`/`EofError` fatal
only when the kind is `UnexpectedEof`). -/
theorem is_probably_fatal_error_ne_spec_table :
    spec_fatal_table (.IoError .Other) = true ∧
    is_probably_fatal_error (.IoError .Other) = false := by
  exact ⟨rfl, rfl⟩

/-- The classification table as the code actually implements it: I/O-layer
and EOF-wrapper errors are fatal exactly when their kind is
`UnexpectedEof`; `IoNotEnoughBytes`, `OneIoError` and `EofExpected` are
fatal; `ParseError`, `TruncatedMsg`, `Unsupported` and `FilterError` are
non-fatal. -/
def amended_fatal_table : ParserError → Bool
  | .IoError k => k == .UnexpectedEof
  | .EofError k => k == .UnexpectedEof
  | .IoNotEnoughBytes => true
  | .OneIoError => true
  | .EofExpected => true
  | _ => false

/-- **C4 (amended).** `is_probably_fatal_error` implements a fixed table in
which an I/O-layer or EOF-wrapper error is fatal exactly when its kind is
`UnexpectedEof`; `IoNotEnoughBytes`, `OneIoError` and `EofExpected` are
fatal; and every content-validation (`ParseError`, `TruncatedMsg`),
unsupported-variant and filtering error is non-fatal. -/
theorem is_probably_fatal_error_table (e : ParserError) :
    is_probably_fatal_error e = amended_fatal_table e := by
  cases e <;> rfl

/-- Opaque decoded MRT record: the iterator never inspects its contents. -/
structure MrtRecord where
  id : Nat
deriving DecidableEq

/-- Embedding of the `MsgIter` state (`iter.rs` lines 7–10): the underlying
reader state (abstract type `σ`) and the sticky `is_finished` flag. -/
structure MsgIter (σ : Type) where
  reader : σ
  is_finished : Bool

/-- The observable outcome of one invocation of the external decoder
`parse_mrt_record` on the `EofChecker`-probed reader: the parse result,
the reader state after whatever reads the decoder performed, and the flag
the probe recorded (whether the very first low-level read of this call
returned zero bytes).  The decoder itself is an external collaborator, so
`MsgIter.next` is parameterised by the function `step` producing this
outcome from the current reader state. -/
structure DecodeOutcome (σ : Type) where
  result : Except ParserError MrtRecord
  reader : σ
  started_with_eof : Bool

/-- Embedding of `MsgIter::next` (`iter.rs` lines 27–48): the emitted item
(`none` = this call produced nothing and the sequence is over for the
caller) together with the updated iterator state.  When `is_finished` is
already set, the decoder is not invoked and the state — including the
underlying reader — is returned untouched. -/
def MsgIter.next {σ : Type} (step : σ → DecodeOutcome σ) (it : MsgIter σ) :
    Option (Except ParserError MrtRecord) × MsgIter σ :=
  if it.is_finished then
    (none, it)
  else
    match step it.reader with
    | ⟨.ok v, r2, _⟩ => (some (.ok v), ⟨r2, false⟩)
    | ⟨.error e, r2, swe⟩ =>
      if swe then
        (none, ⟨r2, false⟩)
      else if is_probably_fatal_error e then
        (some (.error e), ⟨r2, true⟩)
      else
        (some (.error e), ⟨r2, false⟩)

/-- Embedding of the `EofChecker` probe state (`iter.rs` lines 67–71). -/
structure EofChecker (σ : Type) where
  reader : σ
  is_start : Bool
  started_with_eof : Bool

/-- The probe as constructed at the top of each `MsgIter::next` call
(`iter.rs` lines 33–37): `is_start = true`, `started_with_eof = false`. -/
def EofChecker.fresh {σ : Type} (reader : σ) : EofChecker σ :=
  { reader := reader, is_start := true, started_with_eof := false }

/-- Embedding of `EofChecker::read` (`iter.rs` lines 73–82).  The underlying
reader is modelled by `rd`, mapping a reader state and a requested length
to an I/O result (number of bytes read, or an error kind) and the next
reader state.  On the first read only, the probe records whether the read
returned `Ok(0)`. -/
def EofChecker.read {σ : Type} (rd : σ → Nat → Except IoErrorKind Nat × σ)
    (c : EofChecker σ) (len : Nat) : Except IoErrorKind Nat × EofChecker σ :=
  match rd c.reader len with
  | (res, r2) =>
    (res,
      { reader := r2,
        is_start := false,
        started_with_eof :=
          if c.is_start then
            match res with
            | .ok n => n == 0
            | .error _ => false
          else c.started_with_eof })

/-- Run `k` successive calls of `MsgIter.next`, collecting each call's
emitted item. -/
def runIter {σ : Type} (step : σ → DecodeOutcome σ) :
    MsgIter σ → Nat → List (Option (Except ParserError MrtRecord))
  | _, 0 => []
  | it, k + 1 =>
    (MsgIter.next step it).1 :: runIter step (MsgIter.next step it).2 k

/-- A mock decoder driven by a script of parse results: each call consumes
the head of the script (its reads did not begin at end-of-stream); once
the script is exhausted, the very first read of the call finds the end of
the stream, the probe records it, and the decode fails. -/
def scriptStep :
    List (Except ParserError MrtRecord) →
      DecodeOutcome (List (Except ParserError MrtRecord))
  | [] =>
    { result := .error (.EofError .UnexpectedEof), reader := [],
      started_with_eof := true }
  | o :: rest => { result := o, reader := rest, started_with_eof := false }

/-- A mock underlying stream that counts its low-level reads: every decode
attempt reads the stream once (incrementing the counter) and observes a
clean end-of-stream on that very first read. -/
def countStep (n : Nat) : DecodeOutcome Nat :=
  { result := .error (.EofError .UnexpectedEof), reader := n + 1,
    started_with_eof := true }

/-- Unfolding lemma: a call on a not-yet-finished iterator dispatches on the
decoder's outcome. -/
theorem MsgIter.next_not_finished {σ : Type} (step : σ → DecodeOutcome σ)
    (it : MsgIter σ) (hfin : it.is_finished = false) :
    MsgIter.next step it =
      match step it.reader with
      | ⟨.ok v, r2, _⟩ => (some (.ok v), ⟨r2, false⟩)
      | ⟨.error e, r2, swe⟩ =>
        if swe then
          (none, ⟨r2, false⟩)
        else if is_probably_fatal_error e then
          (some (.error e), ⟨r2, true⟩)
        else
          (some (.error e), ⟨r2, false⟩) := by
  rw [MsgIter.next, if_neg (by simp [hfin])]

/-- Running the script of a clean, well-formed stream: every record is
emitted in order, and after the script ends every further call emits
nothing. -/
theorem runIter_scriptStep_clean (recs : List MrtRecord) (n : Nat) :
    runIter scriptStep ⟨recs.map .ok, false⟩ (recs.length + n) =
      recs.map (fun r => some (.ok r)) ++ List.replicate n none := by
  induction recs with
  | nil =>
    simp only [List.map_nil, List.length_nil, Nat.zero_add, List.nil_append]
    induction n with
    | zero => rfl
    | succ k ih =>
      rw [runIter]
      rw [show MsgIter.next scriptStep ⟨[], false⟩ = (none, ⟨[], false⟩) from rfl]
      rw [ih, List.replicate_succ]
  | cons r rest ih =>
    simp only [List.map_cons, List.length_cons]
    rw [Nat.succ_add, runIter]
    rw [show MsgIter.next scriptStep ⟨.ok r :: rest.map .ok, false⟩ =
      (some (.ok r), ⟨rest.map .ok, false⟩) from rfl]
    rw [ih]
    rfl

/-- **C6.** (i) For the fresh probe of a call, the recorded
`started_with_eof` flag after the first low-level read is set exactly when
that read returned zero bytes (a true clean end-of-stream); (ii) if a call
on a not-finished iterator sees the decode fail while the probe recorded a
clean end-of-stream, the call returns `none` and contributes no
`DecodeAttempt`; (iii) consequently a stream that ends exactly at a record
boundary yields one successful attempt per record, in order, and then only
`none` — no error attempt at all. -/
theorem msgIter_clean_eof_terminates :
    (∀ (σ : Type) (rd : σ → Nat → Except IoErrorKind Nat × σ) (r : σ)
        (len : Nat),
        ((EofChecker.read rd (EofChecker.fresh r) len).2.started_with_eof
            = true ↔ (rd r len).1 = .ok 0)) ∧
    (∀ (σ : Type) (step : σ → DecodeOutcome σ) (it : MsgIter σ)
        (e : ParserError),
        it.is_finished = false →
        (step it.reader).result = .error e →
        (step it.reader).started_with_eof = true →
        (MsgIter.next step it).1 = none) ∧
    (∀ (recs : List MrtRecord) (n : Nat),
        runIter scriptStep ⟨recs.map .ok, false⟩ (recs.length + n) =
          recs.map (fun r => some (.ok r)) ++ List.replicate n none) := by
  refine ⟨?_, ?_, runIter_scriptStep_clean⟩
  · intro σ rd r len
    rw [EofChecker.read]
    simp only [EofChecker.fresh]
    rcases hr : rd r len with ⟨res, r2⟩
    cases res with
    | ok n => simp
    | error k => simp
  · intro σ step it e hfin hres hswe
    rw [MsgIter.next_not_finished step it hfin]
    rcases hs : step it.reader with ⟨res, r2, swe⟩
    rw [hs] at hres hswe
    simp only at hres hswe
    rw [hres, hswe]
    rfl

/-- Witness for `msgIter_clean_eof_terminates`: a reader whose first read
returns zero bytes is recorded by the probe; a call whose decode fails with
the probe set emits nothing; a one-record stream yields one success and
then nothing. -/
theorem msgIter_clean_eof_terminates_witness :
    ((EofChecker.read (fun (s : Unit) _ => (Except.ok 0, s))
        (EofChecker.fresh ()) 8).2.started_with_eof = true) ∧
    (MsgIter.next scriptStep ⟨[], false⟩).1 = none ∧
    runIter scriptStep ⟨[MrtRecord.mk 1].map .ok, false⟩ 2 =
      [some (.ok (MrtRecord.mk 1)), none] := by
  refine ⟨?_, ?_, ?_⟩
  · exact (msgIter_clean_eof_terminates.1 Unit _ () 8).mpr rfl
  · exact msgIter_clean_eof_terminates.2.1 _ scriptStep ⟨[], false⟩
      (.EofError .UnexpectedEof) rfl rfl rfl
  · have h := msgIter_clean_eof_terminates.2.2 [MrtRecord.mk 1] 1
    simpa using h

/-- **C7.** A decode failure classified non-fatal (with the probe not having
recorded a clean end-of-stream) makes the call emit exactly one error
attempt carrying that error, leaves `is_finished` unset, and leaves the
reader exactly where the decoder's reads put it, so the following call
resumes from there; consequently a stream consisting of a valid record, a
structurally-invalid-but-length-delimited record, and a valid record
yields success, non-fatal error, success — iteration does not stop. -/
theorem msgIter_non_fatal_continues :
    (∀ (σ : Type) (step : σ → DecodeOutcome σ) (it : MsgIter σ)
        (e : ParserError),
        it.is_finished = false →
        (step it.reader).result = .error e →
        (step it.reader).started_with_eof = false →
        is_probably_fatal_error e = false →
        MsgIter.next step it =
          (some (.error e), ⟨(step it.reader).reader, false⟩)) ∧
    (∀ (r1 r2 : MrtRecord) (msg : String),
        runIter scriptStep
          ⟨[.ok r1, .error (.ParseError msg), .ok r2], false⟩ 4 =
          [some (.ok r1), some (.error (.ParseError msg)), some (.ok r2),
            none]) := by
  constructor
  · intro σ step it e hfin hres hswe hnf
    rw [MsgIter.next_not_finished step it hfin]
    rcases hs : step it.reader with ⟨res, r2, swe⟩
    rw [hs] at hres hswe
    simp only at hres hswe ⊢
    rw [hres, hswe]
    simp [hnf]
  · intro r1 r2 msg
    rfl

/-- Witness for `msgIter_non_fatal_continues`: a concrete non-fatal
`ParseError` between two valid records. -/
theorem msgIter_non_fatal_continues_witness :
    MsgIter.next scriptStep
        ⟨[.error (.ParseError "malformed"), .ok (MrtRecord.mk 2)], false⟩ =
      (some (.error (.ParseError "malformed")),
        ⟨[.ok (MrtRecord.mk 2)], false⟩) ∧
    runIter scriptStep
        ⟨[.ok (MrtRecord.mk 1), .error (.ParseError "malformed"),
          .ok (MrtRecord.mk 2)], false⟩ 4 =
      [some (.ok (MrtRecord.mk 1)), some (.error (.ParseError "malformed")),
        some (.ok (MrtRecord.mk 2)), none] := by
  constructor
  · exact msgIter_non_fatal_continues.1 _ scriptStep _
      (.ParseError "malformed") rfl rfl rfl rfl
  · exact msgIter_non_fatal_continues.2 (MrtRecord.mk 1) (MrtRecord.mk 2)
      "malformed"

/-- **C3 (counterexample).** The finished state is *not* sticky after a
clean end-of-stream.  On the read-counting mock stream, the first call
observes a clean end-of-stream (its decode fails with the probe set) and
returns `none`, but `is_finished` is not set; the second call therefore
invokes the decoder again and the underlying stream's read counter
advances from 1 to 2 — a further read of the underlying stream after
end-of-stream was observed, contradicting the claim. -/
theorem msgIter_not_sticky_after_clean_eof :
    MsgIter.next countStep ⟨0, false⟩ = (none, ⟨1, false⟩) ∧
    MsgIter.next countStep ⟨1, false⟩ = (none, ⟨2, false⟩) ∧
    (MsgIter.next countStep ⟨1, false⟩).2.reader ≠
      (MsgIter.next countStep ⟨0, false⟩).2.reader := by
  exact ⟨rfl, rfl, by decide⟩

/-- **C3 (amended).** The finished state is sticky for fatal errors: a call
that returns a fatal-classified error sets `is_finished`, and on a
finished iterator every subsequent call returns `none` with the state —
including the underlying reader — untouched and the decoder never invoked
(so no further reads of the underlying stream occur); over any number of
calls a finished iterator emits only `none`.  A clean end-of-stream also
makes the call return `none`, but does *not* set `is_finished`, so a
subsequent call probes the underlying stream again. -/
theorem msgIter_fatal_is_sticky :
    (∀ (σ : Type) (step : σ → DecodeOutcome σ) (it : MsgIter σ)
        (e : ParserError),
        it.is_finished = false →
        (step it.reader).result = .error e →
        (step it.reader).started_with_eof = false →
        is_probably_fatal_error e = true →
        MsgIter.next step it =
          (some (.error e), ⟨(step it.reader).reader, true⟩)) ∧
    (∀ (σ : Type) (step : σ → DecodeOutcome σ) (it : MsgIter σ),
        it.is_finished = true → MsgIter.next step it = (none, it)) ∧
    (∀ (σ : Type) (step : σ → DecodeOutcome σ) (it : MsgIter σ) (k : Nat),
        it.is_finished = true → runIter step it k = List.replicate k none) ∧
    (∀ (σ : Type) (step : σ → DecodeOutcome σ) (it : MsgIter σ)
        (e : ParserError),
        it.is_finished = false →
        (step it.reader).result = .error e →
        (step it.reader).started_with_eof = true →
        (MsgIter.next step it).2.is_finished = false) := by
  have hfin : ∀ (σ : Type) (step : σ → DecodeOutcome σ) (it : MsgIter σ),
      it.is_finished = true → MsgIter.next step it = (none, it) := by
    intro σ step it h
    rw [MsgIter.next, if_pos h]
  refine ⟨?_, hfin, ?_, ?_⟩
  · intro σ step it e hf hres hswe hfat
    rw [MsgIter.next_not_finished step it hf]
    rcases hs : step it.reader with ⟨res, r2, swe⟩
    rw [hs] at hres hswe
    simp only at hres hswe ⊢
    rw [hres, hswe]
    simp [hfat]
  · intro σ step it k h
    induction k with
    | zero => rfl
    | succ m ih =>
      rw [runIter, hfin σ step it h]
      rw [ih, List.replicate_succ]
  · intro σ step it e hf hres hswe
    rw [MsgIter.next_not_finished step it hf]
    rcases hs : step it.reader with ⟨res, r2, swe⟩
    rw [hs] at hres hswe
    simp only at hres hswe
    rw [hres, hswe]
    rfl

/-- Witness for `msgIter_fatal_is_sticky`: a concrete fatal
`IoNotEnoughBytes` failure sets the flag; a finished iterator yields only
`none` over three calls; a clean end-of-stream leaves the flag unset. -/
theorem msgIter_fatal_is_sticky_witness :
    MsgIter.next scriptStep ⟨[.error .IoNotEnoughBytes], false⟩ =
      (some (.error .IoNotEnoughBytes), ⟨[], true⟩) ∧
    MsgIter.next countStep ⟨5, true⟩ = (none, ⟨5, true⟩) ∧
    runIter countStep ⟨5, true⟩ 3 = [none, none, none] ∧
    (MsgIter.next countStep ⟨0, false⟩).2.is_finished = false := by
  refine ⟨?_, ?_, ?_, ?_⟩
  · exact msgIter_fatal_is_sticky.1 _ scriptStep _ .IoNotEnoughBytes
      rfl rfl rfl rfl
  · exact msgIter_fatal_is_sticky.2.1 Nat countStep ⟨5, true⟩ rfl
  · have h := msgIter_fatal_is_sticky.2.2.1 Nat countStep ⟨5, true⟩ 3 rfl
    simpa using h
  · exact msgIter_fatal_is_sticky.2.2.2 Nat countStep ⟨0, false⟩
      (.EofError .UnexpectedEof) rfl rfl rfl

/-! ## Interleaved budget dynamics (`prefetch.rs`)

The fetch workers and the buffer-guard drops touch `ESTIMATED_SPACE` at
three places: the claim in `attempt_to_claim_space` (lines 49–62), the
post-fetch signed reconciliation `fetch_add(requested_size -
buffer.capacity())` (line 119), and the release
`fetch_add(claimed_space)` in `BufferGuard::drop` (lines 91–97).  On fetch
failure the worker `continue`s (lines 113–116) before the `BufferGuard`
exists, performing no release.  We model the interleavings as a small-step
transition system over the counter and the per-source lifecycle phases.
-/

/-- The lifecycle phase of one source descriptor inside `worker_thread`
(`prefetch.rs` lines 99–146). -/
inductive Phase where
  /-- still queued, no claim attempted yet -/
  | pending
  /-- claim denied; the source is streamed without buffering -/
  | unbuffered
  /-- claim granted: `2 * rough_size` currently subtracted from the counter -/
  | claimed
  /-- fetch failed after the claim; the worker `continue`d without a release -/
  | leaked
  /-- fetch finished with final buffer capacity `c`; budget reconciled and
  the `BufferGuard` (claiming `c`) is alive -/
  | buffered (capacity : Int)
  /-- the `BufferGuard` was dropped and its capacity released -/
  | done
deriving DecidableEq

/-- One queued source: its `rough_size` estimate and its current phase. -/
structure SourceItem where
  rough_size : Int
  phase : Phase
deriving DecidableEq

/-- Global state of the budget dynamics: `ESTIMATED_SPACE` and the
per-source phases. -/
structure BudgetState where
  space : Int
  items : List SourceItem
deriving DecidableEq

/-- The amount of budget a source currently holds (still subtracted from
the counter): a granted claim holds `2 * rough_size` until the
reconciliation replaces that by the final capacity; a leaked claim holds
its `2 * rough_size` forever. -/
def Phase.held (rough_size : Int) : Phase → Int
  | .pending => 0
  | .unbuffered => 0
  | .claimed => 2 * rough_size
  | .leaked => 2 * rough_size
  | .buffered c => c
  | .done => 0

def SourceItem.held (it : SourceItem) : Int :=
  it.phase.held it.rough_size

def heldSum : List SourceItem → Int
  | [] => 0
  | it :: rest => it.held + heldSum rest

/-- One interleaved step of the budget dynamics.  `capok rough c`
constrains the final buffer capacity `c` a successful fetch of a source
with estimate `rough` may produce; the capacity is chosen by the network
and the allocator, i.e. by the environment. -/
inductive BudgetStep (capok : Int → Int → Prop) (s : BudgetState) :
    BudgetState → Prop where
  /-- `attempt_to_claim_space(item.rough_size)` returned `Some(c)`
  (line 101): the counter was atomically decremented. -/
  | claim_granted (i : Nat) (it : SourceItem) (c s2 : Int)
      (hi : s.items[i]? = some it) (hp : it.phase = .pending)
      (hg : attempt_to_claim_space s.space it.rough_size = (some c, s2)) :
      BudgetStep capok s ⟨s2, s.items.set i { it with phase := .claimed }⟩
  /-- `attempt_to_claim_space` returned `None` (line 128): the worker falls
  back to unbounded streaming. -/
  | claim_denied (i : Nat) (it : SourceItem) (s2 : Int)
      (hi : s.items[i]? = some it) (hp : it.phase = .pending)
      (hg : attempt_to_claim_space s.space it.rough_size = (none, s2)) :
      BudgetStep capok s ⟨s2, s.items.set i { it with phase := .unbuffered }⟩
  /-- the budgeted fetch failed (lines 113–116): the worker `continue`s; no
  adjustment and no release ever happen for this claim. -/
  | fetch_failed (i : Nat) (it : SourceItem)
      (hi : s.items[i]? = some it) (hp : it.phase = .claimed) :
      BudgetStep capok s ⟨s.space, s.items.set i { it with phase := .leaked }⟩
  /-- the budgeted fetch succeeded with final buffer capacity `c`: the
  signed reconciliation `fetch_add(requested_size - buffer.capacity())`
  (line 119) runs, `requested_size` being the granted `2 * rough_size`,
  and the `BufferGuard` now claims `c`. -/
  | fetch_done (i : Nat) (it : SourceItem) (c : Int)
      (hi : s.items[i]? = some it) (hp : it.phase = .claimed)
      (hc : capok it.rough_size c) :
      BudgetStep capok s
        ⟨s.space + (2 * it.rough_size - c),
          s.items.set i { it with phase := .buffered c }⟩
  /-- `BufferGuard::drop` (lines 91–97): `fetch_add(claimed_space)`. -/
  | drop_guard (i : Nat) (it : SourceItem) (c : Int)
      (hi : s.items[i]? = some it) (hp : it.phase = .buffered c) :
      BudgetStep capok s ⟨s.space + c, s.items.set i { it with phase := .done }⟩

/-- The environment constraint that holds of every real fetch: a `Vec`'s
capacity is a non-negative machine integer. -/
def anyCap (_rough c : Int) : Prop := 0 ≤ c

/-- The restricted environment in which the downloaded data never outgrows
the claimed amount: the final capacity stays within `2 * rough_size`. -/
def boundedCap (rough c : Int) : Prop := 0 ≤ c ∧ c ≤ 2 * rough

/-- The initial state: `ESTIMATED_SPACE = PREFETCH_BUFFER_SPACE` and every
source still pending. -/
def initState (sizes : List Int) : BudgetState :=
  ⟨PREFETCH_BUFFER_SPACE, sizes.map fun z => ⟨z, Phase.pending⟩⟩

/-- A granted claim is always `2 * estimated_size`, taken from a counter
that covered it. -/
theorem attempt_granted {space e c s2 : Int}
    (h : attempt_to_claim_space space e = (some c, s2)) :
    c = 2 * e ∧ s2 = space - 2 * e ∧ 0 < e ∧ 2 * e ≤ space := by
  rw [attempt_to_claim_space] at h
  split_ifs at h with h1 h2
  · simp at h
  · obtain ⟨hc, hs⟩ := Prod.mk.injEq .. ▸ h
    refine ⟨(Option.some.injEq .. ▸ hc).symm, hs.symm, ?_, h2⟩
    omega
  · simp at h

/-- A denied claim leaves the counter unchanged. -/
theorem attempt_denied {space e s2 : Int}
    (h : attempt_to_claim_space space e = (none, s2)) : s2 = space := by
  rw [attempt_to_claim_space] at h
  split_ifs at h with h1 h2
  · exact (Prod.mk.injEq .. ▸ h).2.symm
  · simp at h
  · exact (Prod.mk.injEq .. ▸ h).2.symm

theorem heldSum_set (l : List SourceItem) (i : Nat) (it it' : SourceItem)
    (hi : l[i]? = some it) :
    heldSum (l.set i it') = heldSum l - it.held + it'.held := by
  induction l generalizing i with
  | nil => simp at hi
  | cons a rest ih =>
    cases i with
    | zero =>
      simp only [List.getElem?_cons_zero, Option.some.injEq] at hi
      subst hi
      simp only [List.set_cons_zero, heldSum]
      ring
    | succ j =>
      simp only [List.getElem?_cons_succ] at hi
      simp only [List.set_cons_succ, heldSum, ih j hi]
      ring

theorem heldSum_init (sizes : List Int) :
    heldSum (sizes.map fun z => ⟨z, Phase.pending⟩) = 0 := by
  induction sizes with
  | nil => rfl
  | cons z rest ih =>
    simp only [List.map_cons, heldSum, ih, SourceItem.held, Phase.held]
    ring

/-- Conservation: at every reachable state, the counter plus everything
currently held by claims equals the initial capacity. -/
theorem budget_conservation (capok : Int → Int → Prop) (sizes : List Int)
    (s : BudgetState)
    (h : Relation.ReflTransGen (BudgetStep capok) (initState sizes) s) :
    s.space + heldSum s.items = PREFETCH_BUFFER_SPACE := by
  induction h with
  | refl => simp [initState, heldSum_init]
  | tail hab hbc ih =>
    cases hbc with
    | claim_granted i it c s2 hi hp hg =>
      obtain ⟨hc, hs, hpos, hcov⟩ := attempt_granted hg
      have hheld : it.held = 0 := by
        simp [SourceItem.held, hp, Phase.held]
      dsimp only
      rw [heldSum_set _ i it _ hi, hheld]
      simp only [SourceItem.held, Phase.held]
      omega
    | claim_denied i it s2 hi hp hg =>
      have hs := attempt_denied hg
      have hheld : it.held = 0 := by
        simp [SourceItem.held, hp, Phase.held]
      dsimp only
      rw [heldSum_set _ i it _ hi, hheld]
      simp only [SourceItem.held, Phase.held]
      omega
    | fetch_failed i it hi hp =>
      have hheld : it.held = 2 * it.rough_size := by
        simp [SourceItem.held, hp, Phase.held]
      dsimp only
      rw [heldSum_set _ i it _ hi, hheld]
      simp only [SourceItem.held, Phase.held]
      omega
    | fetch_done i it c hi hp hc =>
      have hheld : it.held = 2 * it.rough_size := by
        simp [SourceItem.held, hp, Phase.held]
      dsimp only
      rw [heldSum_set _ i it _ hi, hheld]
      simp only [SourceItem.held, Phase.held]
      omega
    | drop_guard i it c hi hp =>
      have hheld : it.held = c := by
        simp [SourceItem.held, hp, Phase.held]
      dsimp only
      rw [heldSum_set _ i it _ hi, hheld]
      simp only [SourceItem.held, Phase.held]
      omega

/-- Under the bounded-capacity environment, the counter stays non-negative
and every live guard's recorded capacity is non-negative. -/
theorem budget_nonneg_aux (sizes : List Int) (s : BudgetState)
    (h : Relation.ReflTransGen (BudgetStep boundedCap) (initState sizes) s) :
    0 ≤ s.space ∧
      ∀ it ∈ s.items, ∀ c, it.phase = .buffered c → 0 ≤ c := by
  induction h with
  | refl =>
    constructor
    · norm_num [initState, PREFETCH_BUFFER_SPACE]
    · intro it hmem c hph
      simp only [initState, List.mem_map] at hmem
      obtain ⟨z, _, hz⟩ := hmem
      rw [← hz] at hph
      simp at hph
  | tail hab hbc ih =>
    obtain ⟨ihs, ihb⟩ := ih
    cases hbc with
    | claim_granted i it c s2 hi hp hg =>
      obtain ⟨hc, hs, _, hcov⟩ := attempt_granted hg
      refine ⟨?_, fun it' hmem c' hph => ?_⟩
      · dsimp only
        omega
      · rcases List.mem_or_eq_of_mem_set hmem with hold | hnew
        · exact ihb it' hold c' hph
        · rw [hnew] at hph; simp at hph
    | claim_denied i it s2 hi hp hg =>
      have hs := attempt_denied hg
      refine ⟨?_, fun it' hmem c' hph => ?_⟩
      · dsimp only
        omega
      · rcases List.mem_or_eq_of_mem_set hmem with hold | hnew
        · exact ihb it' hold c' hph
        · rw [hnew] at hph; simp at hph
    | fetch_failed i it hi hp =>
      refine ⟨ihs, fun it' hmem c' hph => ?_⟩
      rcases List.mem_or_eq_of_mem_set hmem with hold | hnew
      · exact ihb it' hold c' hph
      · rw [hnew] at hph; simp at hph
    | fetch_done i it c hi hp hc =>
      obtain ⟨hc0, hcle⟩ := hc
      refine ⟨?_, fun it' hmem c' hph => ?_⟩
      · dsimp only
        omega
      · rcases List.mem_or_eq_of_mem_set hmem with hold | hnew
        · exact ihb it' hold c' hph
        · rw [hnew] at hph
          simp only [Phase.buffered.injEq] at hph
          omega
    | drop_guard i it c hi hp =>
      have hc0 : 0 ≤ c := ihb it (List.getElem?_mem hi) c hp
      refine ⟨?_, fun it' hmem c' hph => ?_⟩
      · dsimp only
        omega
      · rcases List.mem_or_eq_of_mem_set hmem with hold | hnew
        · exact ihb it' hold c' hph
        · rw [hnew] at hph; simp at hph

theorem heldSum_zero_of_released (l : List SourceItem)
    (h : ∀ it ∈ l, it.phase = .pending ∨ it.phase = .unbuffered ∨
      it.phase = .done) :
    heldSum l = 0 := by
  induction l with
  | nil => rfl
  | cons a rest ih =>
    have ha := h a (by simp)
    have hr := ih fun it hmem => h it (by simp [hmem])
    rcases ha with hp | hp | hp <;>
      simp [heldSum, SourceItem.held, hp, Phase.held, hr]

/-- **C1 (counterexample).** The running counter *can* go negative: nothing
bounds a fetched buffer's final capacity by the claimed amount (the
estimate `rough_size` is only an estimate).  Concretely, starting from the
initial capacity with one source of estimated size 1, the claim is granted
(2 bytes), and a fetch whose body outgrows the claim to a final `Vec`
capacity of `2 ^ 36` bytes drives the counter to
`PREFETCH_BUFFER_SPACE - 2 ^ 36 = -2 ^ 35 < 0` at the reconciliation
step (`prefetch.rs` line 119). -/
theorem budget_goes_negative :
    Relation.ReflTransGen (BudgetStep anyCap) (initState [1])
      ⟨PREFETCH_BUFFER_SPACE - 2 ^ 36,
        [⟨1, Phase.buffered (2 ^ 36)⟩]⟩ ∧
    PREFETCH_BUFFER_SPACE - 2 ^ 36 < 0 := by
  constructor
  · have h1 : BudgetStep anyCap (initState [1])
        ⟨PREFETCH_BUFFER_SPACE - 2, [⟨1, Phase.claimed⟩]⟩ :=
      BudgetStep.claim_granted 0 ⟨1, Phase.pending⟩ 2
        (PREFETCH_BUFFER_SPACE - 2) rfl rfl (by decide)
    have h2 : BudgetStep anyCap
        ⟨PREFETCH_BUFFER_SPACE - 2, [⟨1, Phase.claimed⟩]⟩
        ⟨(PREFETCH_BUFFER_SPACE - 2) + (2 * 1 - 2 ^ 36),
          [⟨1, Phase.buffered (2 ^ 36)⟩]⟩ :=
      BudgetStep.fetch_done 0 ⟨1, Phase.claimed⟩ (2 ^ 36) rfl rfl
        (by norm_num [anyCap])
    have heq : (PREFETCH_BUFFER_SPACE - 2) + (2 * 1 - 2 ^ 36) =
        PREFETCH_BUFFER_SPACE - 2 ^ 36 := by ring
    rw [heq] at h2
    exact Relation.ReflTransGen.tail (Relation.ReflTransGen.tail
      Relation.ReflTransGen.refl h1) h2
  · norm_num [PREFETCH_BUFFER_SPACE]

/-- **C1 (amended).** For every interleaving of claims, reconciliation
adjustments and releases: (conservation) whenever every granted claim has
been fully released — no source is left in a claimed, buffered or leaked
phase — the counter equals the initial capacity `PREFETCH_BUFFER_SPACE`
exactly; and (non-negativity) provided every successful fetch's final
buffer capacity is at most its claimed amount `2 * rough_size`, the
running counter never goes negative. -/
theorem budget_invariant :
    (∀ (capok : Int → Int → Prop) (sizes : List Int) (s : BudgetState),
        Relation.ReflTransGen (BudgetStep capok) (initState sizes) s →
        (∀ it ∈ s.items, it.phase = .pending ∨ it.phase = .unbuffered ∨
          it.phase = .done) →
        s.space = PREFETCH_BUFFER_SPACE) ∧
    (∀ (sizes : List Int) (s : BudgetState),
        Relation.ReflTransGen (BudgetStep boundedCap) (initState sizes) s →
        0 ≤ s.space) := by
  constructor
  · intro capok sizes s h hrel
    have hcons := budget_conservation capok sizes s h
    rw [heldSum_zero_of_released s.items hrel] at hcons
    omega
  · intro sizes s h
    exact (budget_nonneg_aux sizes s h).1

/-- Witness for `budget_invariant`: the full lifecycle of one source of
estimated size 1 whose fetch produced a buffer of capacity 2 — claim
(counter drops by 2), reconciliation (unchanged: `2 - 2`), drop (counter
restored) — ends with the counter back at `PREFETCH_BUFFER_SPACE`, and
every state of that bounded-capacity run has a non-negative counter. -/
theorem budget_invariant_witness :
    (⟨PREFETCH_BUFFER_SPACE, [⟨1, Phase.done⟩]⟩ : BudgetState).space =
      PREFETCH_BUFFER_SPACE ∧
    (0 : Int) ≤ (⟨PREFETCH_BUFFER_SPACE, [⟨1, Phase.done⟩]⟩ :
      BudgetState).space := by
  have h1 : BudgetStep boundedCap (initState [1])
      ⟨PREFETCH_BUFFER_SPACE - 2, [⟨1, Phase.claimed⟩]⟩ :=
    BudgetStep.claim_granted 0 ⟨1, Phase.pending⟩ 2
      (PREFETCH_BUFFER_SPACE - 2) rfl rfl (by decide)
  have h2 : BudgetStep boundedCap
      ⟨PREFETCH_BUFFER_SPACE - 2, [⟨1, Phase.claimed⟩]⟩
      ⟨(PREFETCH_BUFFER_SPACE - 2) + (2 * 1 - 2),
        [⟨1, Phase.buffered 2⟩]⟩ :=
    BudgetStep.fetch_done 0 ⟨1, Phase.claimed⟩ 2 rfl rfl
      (by norm_num [boundedCap])
  have h3 : BudgetStep boundedCap
      ⟨(PREFETCH_BUFFER_SPACE - 2) + (2 * 1 - 2),
        [⟨1, Phase.buffered 2⟩]⟩
      ⟨(PREFETCH_BUFFER_SPACE - 2) + (2 * 1 - 2) + 2,
        [⟨1, Phase.done⟩]⟩ :=
    BudgetStep.drop_guard 0 ⟨1, Phase.buffered 2⟩ 2 rfl rfl
  have heq : (PREFETCH_BUFFER_SPACE - 2) + (2 * 1 - 2) + 2 =
      PREFETCH_BUFFER_SPACE := by ring
  rw [heq] at h3
  have hreach : Relation.ReflTransGen (BudgetStep boundedCap) (initState [1])
      ⟨PREFETCH_BUFFER_SPACE, [⟨1, Phase.done⟩]⟩ :=
    Relation.ReflTransGen.tail (Relation.ReflTransGen.tail
      (Relation.ReflTransGen.tail Relation.ReflTransGen.refl h1) h2) h3
  constructor
  · exact budget_invariant.1 boundedCap [1] _ hreach
      (by intro it hmem; simp at hmem; rw [hmem]; right; right; rfl)
  · exact budget_invariant.2 [1] _ hreach

/-- **C2 (code bug).** When a budgeted fetch fails after
`attempt_to_claim_space` granted a claim, the worker `continue`s
(`prefetch.rs` lines 113–116) *before* any `BufferGuard` is constructed
and without any release: the claimed budget is never returned.  For one
source of estimated size 1 whose fetch fails, the system reaches the
state with counter `PREFETCH_BUFFER_SPACE - 2` and the source leaked; no
further step is possible from that state, so the counter never returns to
`PREFETCH_BUFFER_SPACE` — a failed fetch permanently reduces the
remaining budget, contradicting the claim. -/
theorem budget_leaked_on_fetch_failure :
    Relation.ReflTransGen (BudgetStep anyCap) (initState [1])
      ⟨PREFETCH_BUFFER_SPACE - 2, [⟨1, Phase.leaked⟩]⟩ ∧
    PREFETCH_BUFFER_SPACE - 2 ≠ PREFETCH_BUFFER_SPACE ∧
    ∀ s', ¬ BudgetStep anyCap
      ⟨PREFETCH_BUFFER_SPACE - 2, [⟨1, Phase.leaked⟩]⟩ s' := by
  refine ⟨?_, by norm_num, ?_⟩
  · have h1 : BudgetStep anyCap (initState [1])
        ⟨PREFETCH_BUFFER_SPACE - 2, [⟨1, Phase.claimed⟩]⟩ :=
      BudgetStep.claim_granted 0 ⟨1, Phase.pending⟩ 2
        (PREFETCH_BUFFER_SPACE - 2) rfl rfl (by decide)
    have h2 : BudgetStep anyCap
        ⟨PREFETCH_BUFFER_SPACE - 2, [⟨1, Phase.claimed⟩]⟩
        ⟨PREFETCH_BUFFER_SPACE - 2, [⟨1, Phase.leaked⟩]⟩ :=
      BudgetStep.fetch_failed 0 ⟨1, Phase.claimed⟩ rfl rfl
    exact Relation.ReflTransGen.tail (Relation.ReflTransGen.tail
      Relation.ReflTransGen.refl h1) h2
  · intro s' h
    have hget : ∀ (i : Nat) (it : SourceItem),
        ([⟨1, Phase.leaked⟩] : List SourceItem)[i]? = some it →
        it = ⟨1, Phase.leaked⟩ := by
      intro i it hi
      cases i with
      | zero =>
        simp only [List.getElem?_cons_zero, Option.some.injEq] at hi
        exact hi.symm
      | succ j => simp at hi
    cases h with
    | claim_granted i it c s2 hi hp hg =>
      rw [hget i it hi] at hp; simp at hp
    | claim_denied i it s2 hi hp hg =>
      rw [hget i it hi] at hp; simp at hp
    | fetch_failed i it hi hp =>
      rw [hget i it hi] at hp; simp at hp
    | fetch_done i it c hi hp hc =>
      rw [hget i it hi] at hp; simp at hp
    | drop_guard i it c hi hp =>
      rw [hget i it hi] at hp; simp at hp

/-! ## The decompression router (`prefetch.rs` lines 148–161) -/

/-- Embedding of the `BufferGuard` data (`prefetch.rs` lines 64–70): the
byte buffer, the read cursor, and the capacity it claimed. -/
structure BufferGuard where
  buffer : List Nat
  index : Nat
  claimed_space : Nat
deriving DecidableEq

/-- An `lz4::Decoder` wrapping a buffer — an external collaborator; only
the fallibility of its construction matters to the router. -/
structure Lz4Decoder where
  inner : BufferGuard
deriving DecidableEq

/-- The reader the decompression router hands back: one of the
decompressor wrappers around the buffer, or the buffer passed through
unmodified. -/
inductive DecompressReader where
  | gzDecoder (inner : BufferGuard)
  | bzDecoder (inner : BufferGuard)
  | lz4Decoder (inner : Lz4Decoder)
  | asIs (inner : BufferGuard)
deriving DecidableEq

/-- Rust `str::ends_with`: suffix test on the underlying characters. -/
def ends_with (s sfx : String) : Bool :=
  sfx.data.isSuffixOf s.data

/-- Embedding of `reader_for_buffer` (`prefetch.rs` lines 148–161).  The
constructor `lz4::Decoder::new` of the external lz4 crate reads the frame
header from the buffer at construction time and returns a `Result`; the
source calls `.unwrap()` on it, so a failed construction (e.g. an empty
buffer or an invalid LZ4 magic number) panics — modelled as `none`.
`lz4New` is that external constructor. -/
def reader_for_buffer (lz4New : BufferGuard → Option Lz4Decoder)
    (file : String) (buffer : BufferGuard) : Option DecompressReader :=
  if ends_with file ".gz" || ends_with file ".gzip" then
    some (.gzDecoder buffer)
  else if ends_with file ".bz2" || ends_with file ".bz" then
    some (.bzDecoder buffer)
  else if ends_with file ".lz4" || ends_with file ".lz" then
    match lz4New buffer with
    | some d => some (.lz4Decoder d)
    | none => none
  else
    some (.asIs buffer)

/-- **C8 (counterexample).** The router is not total: for a filename ending
in `.lz4` whose buffer the external LZ4 constructor rejects (here: an
empty buffer, whose frame-header read fails), `reader_for_buffer`
unwraps the failure and panics — it does not return a reader. -/
theorem reader_for_buffer_panics_on_lz4 :
    reader_for_buffer (fun _ => none) "a.lz4" ⟨[], 0, 0⟩ = none := by
  decide

/-- **C8 (amended).** For every filename that does not end in `.lz4` or
`.lz` the router never fails: recognized gzip/bzip2 suffixes get the
matching decompressor wrapped around the buffer, and every unknown
suffix passes the buffer through unmodified, as-is; for `.lz4`/`.lz`
names the router returns a reader exactly when the external LZ4
constructor succeeds (and panics on its `.unwrap()` otherwise). -/
theorem reader_for_buffer_total_unless_lz4 :
    (∀ (lz4New : BufferGuard → Option Lz4Decoder) (file : String)
        (buffer : BufferGuard),
        (ends_with file ".lz4" || ends_with file ".lz") = false →
        (reader_for_buffer lz4New file buffer).isSome = true) ∧
    (∀ (lz4New : BufferGuard → Option Lz4Decoder) (file : String)
        (buffer : BufferGuard),
        (ends_with file ".gz" || ends_with file ".gzip") = false →
        (ends_with file ".bz2" || ends_with file ".bz") = false →
        (ends_with file ".lz4" || ends_with file ".lz") = false →
        reader_for_buffer lz4New file buffer = some (.asIs buffer)) ∧
    (∀ (lz4New : BufferGuard → Option Lz4Decoder) (file : String)
        (buffer : BufferGuard) (d : Lz4Decoder),
        lz4New buffer = some d →
        (reader_for_buffer lz4New file buffer).isSome = true) := by
  refine ⟨?_, ?_, ?_⟩
  · intro lz4New file buffer h
    rw [reader_for_buffer]
    split_ifs with h1 h2 h3
    · rfl
    · rfl
    · rw [h] at h3; exact absurd h3 (by simp)
    · rfl
  · intro lz4New file buffer hgz hbz hlz
    rw [reader_for_buffer]
    rw [hgz, hbz, hlz]
    rfl
  · intro lz4New file buffer d hd
    rw [reader_for_buffer]
    split_ifs with h1 h2 h3
    · rfl
    · rfl
    · rw [hd]; rfl
    · rfl

/-- Witness for `reader_for_buffer_total_unless_lz4`: a gzip name, an
unknown suffix passed through as-is, and an lz4 name whose constructor
succeeds. -/
theorem reader_for_buffer_total_unless_lz4_witness :
    (reader_for_buffer (fun _ => none) "x.gz" ⟨[1], 0, 2⟩).isSome = true ∧
    reader_for_buffer (fun _ => none) "x.unknown" ⟨[1], 0, 2⟩ =
      some (.asIs ⟨[1], 0, 2⟩) ∧
    (reader_for_buffer (fun b => some ⟨b⟩) "y.lz4" ⟨[1], 0, 2⟩).isSome
      = true := by
  refine ⟨?_, ?_, ?_⟩
  · exact reader_for_buffer_total_unless_lz4.1 _ "x.gz" _ (by decide)
  · exact reader_for_buffer_total_unless_lz4.2.1 _ "x.unknown" _
      (by decide) (by decide) (by decide)
  · exact reader_for_buffer_total_unless_lz4.2.2 _ "y.lz4" _ ⟨[1], 0, 2⟩ rfl

/-! ## The statistics accumulator (`main.rs` lines 121–222)

`AttributeCounts` holds two hash maps: co-occurring-attribute-set → count
and single attribute → total count, with `u64` values.  A `HashMap` is
modelled extensionally by its lookup function, a missing key reading as 0
(the `or_default()` used on every access); `u64` addition wraps, so
values live in `ZMod (2 ^ 64)`.  Rust's `Default` pre-seeds `totals` with
an explicit 0 for a fixed list of attribute codes — extensionally the
all-zero map.
-/

/-- BGP path-attribute type code: `AttrType` is `u8`-backed. -/
abbrev AttrType := Fin 256

/-- Wrapping 64-bit counter (`u64`). -/
abbrev U64 := ZMod (2 ^ 64)

/-- Embedding of `AttributeCounts` (`main.rs` lines 124–127): the
attribute-group map is keyed by the sorted list of observed attribute
types (`AttrTypeList`). -/
structure AttributeCounts where
  map : List AttrType → U64
  totals : AttrType → U64

/-- Embedding of `AttributeCounts::default` (`main.rs` lines 129–176). -/
def AttributeCounts.default : AttributeCounts :=
  ⟨fun _ => 0, fun _ => 0⟩

/-- Embedding of `AttributeCounts::reduce` (`main.rs` lines 210–221):
every entry of `other` is added into `self`, missing entries reading 0. -/
def AttributeCounts.reduce (a other : AttributeCounts) : AttributeCounts :=
  ⟨fun k => a.map k + other.map k, fun k => a.totals k + other.totals k⟩

theorem counts_ext {a b : AttributeCounts}
    (hm : ∀ k, a.map k = b.map k) (ht : ∀ k, a.totals k = b.totals k) :
    a = b := by
  cases a
  cases b
  simp only [AttributeCounts.mk.injEq]
  exact ⟨funext hm, funext ht⟩

theorem reduce_comm (a b : AttributeCounts) :
    a.reduce b = b.reduce a := by
  refine counts_ext (fun k => ?_) (fun k => ?_) <;>
    simp [AttributeCounts.reduce, add_comm]

theorem reduce_assoc (a b c : AttributeCounts) :
    (a.reduce b).reduce c = a.reduce (b.reduce c) := by
  refine counts_ext (fun k => ?_) (fun k => ?_) <;>
    simp [AttributeCounts.reduce, add_assoc]

theorem reduce_default_left (a : AttributeCounts) :
    AttributeCounts.default.reduce a = a := by
  refine counts_ext (fun k => ?_) (fun k => ?_) <;>
    simp [AttributeCounts.reduce, AttributeCounts.default]

theorem reduce_default_right (a : AttributeCounts) :
    a.reduce AttributeCounts.default = a := by
  refine counts_ext (fun k => ?_) (fun k => ?_) <;>
    simp [AttributeCounts.reduce, AttributeCounts.default]

/-- A grouping of a parallel reduction: the shape in which `rayon`'s
`reduce` combines the per-source results. -/
inductive FoldTree (α : Type) where
  | leaf (a : α)
  | node (l r : FoldTree α)

def FoldTree.leaves {α : Type} : FoldTree α → List α
  | .leaf a => [a]
  | .node l r => l.leaves ++ r.leaves

def FoldTree.fold {α : Type} (f : α → α → α) : FoldTree α → α
  | .leaf a => a
  | .node l r => f (l.fold f) (r.fold f)

theorem foldr_reduce_init (l : List AttributeCounts) (x : AttributeCounts) :
    l.foldr AttributeCounts.reduce x =
      (l.foldr AttributeCounts.reduce AttributeCounts.default).reduce x := by
  induction l with
  | nil => simp [List.foldr_nil, reduce_default_left]
  | cons a rest ih => simp [List.foldr_cons, ih, reduce_assoc]

theorem fold_eq_foldr (t : FoldTree AttributeCounts) :
    t.fold AttributeCounts.reduce =
      t.leaves.foldr AttributeCounts.reduce AttributeCounts.default := by
  induction t with
  | leaf a => simp [FoldTree.fold, FoldTree.leaves, reduce_default_right]
  | node l r ihl ihr =>
    simp only [FoldTree.fold, FoldTree.leaves, List.foldr_append, ihl, ihr]
    rw [foldr_reduce_init l.leaves
      (r.leaves.foldr AttributeCounts.reduce AttributeCounts.default)]

theorem reduce_left_comm (a b c : AttributeCounts) :
    a.reduce (b.reduce c) = b.reduce (a.reduce c) := by
  rw [← reduce_assoc, reduce_comm a b, reduce_assoc]

theorem foldr_reduce_perm {l1 l2 : List AttributeCounts}
    (h : l1.Perm l2) :
    l1.foldr AttributeCounts.reduce AttributeCounts.default =
      l2.foldr AttributeCounts.reduce AttributeCounts.default := by
  induction h with
  | nil => rfl
  | cons x _ ih => simp [List.foldr_cons, ih]
  | swap x y l => simp [List.foldr_cons, reduce_left_comm]
  | trans _ _ ih1 ih2 => exact ih1.trans ih2

/-- **C9.** `AttributeCounts::reduce` is associative and commutative with
`AttributeCounts::default` as a two-sided identity; consequently, for a
fixed multiset of per-source counts, folding them with `reduce` in any
grouping (any fold tree) and any order (any permutation of the leaves),
starting from `default`, produces identical final attribute-group counts
and per-attribute totals. -/
theorem attributeCounts_reduce_assoc_comm :
    (∀ a b : AttributeCounts, a.reduce b = b.reduce a) ∧
    (∀ a b c : AttributeCounts,
      (a.reduce b).reduce c = a.reduce (b.reduce c)) ∧
    (∀ a : AttributeCounts,
      AttributeCounts.default.reduce a = a ∧
      a.reduce AttributeCounts.default = a) ∧
    (∀ t1 t2 : FoldTree AttributeCounts, t1.leaves.Perm t2.leaves →
      t1.fold AttributeCounts.reduce = t2.fold AttributeCounts.reduce) := by
  refine ⟨reduce_comm, reduce_assoc,
    fun a => ⟨reduce_default_left a, reduce_default_right a⟩, ?_⟩
  intro t1 t2 h
  rw [fold_eq_foldr, fold_eq_foldr]
  exact foldr_reduce_perm h

/-- Witness for `attributeCounts_reduce_assoc_comm`: two concrete
accumulators combined in the two possible orders of a two-leaf tree give
the same result. -/
theorem attributeCounts_reduce_assoc_comm_witness :
    (FoldTree.node
        (FoldTree.leaf (⟨fun _ => 1, fun _ => 2⟩ : AttributeCounts))
        (FoldTree.leaf (⟨fun _ => 3, fun _ => 4⟩ : AttributeCounts))).fold
        AttributeCounts.reduce =
      (FoldTree.node
        (FoldTree.leaf (⟨fun _ => 3, fun _ => 4⟩ : AttributeCounts))
        (FoldTree.leaf (⟨fun _ => 1, fun _ => 2⟩ : AttributeCounts))).fold
        AttributeCounts.reduce := by
  refine attributeCounts_reduce_assoc_comm.2.2.2 _ _ ?_
  show ([⟨fun _ => 1, fun _ => 2⟩, ⟨fun _ => 3, fun _ => 4⟩] :
      List AttributeCounts).Perm
    [⟨fun _ => 3, fun _ => 4⟩, ⟨fun _ => 1, fun _ => 2⟩]
  exact List.Perm.swap _ _ _

end BgpSurvey
